import Mathlib

/-!
Shallow embedding of the semantic memory store of `src/memory.py`
(`SemanticMemory` with `add_memory`, `retrieve_similar`, `reset`).

Modelling conventions:
* The SentenceTransformer model (`self.model.encode`) is an external,
  deterministic text-to-vector function; it is passed around as a
  parameter `encode : String → List ℚ`.
* `faiss.IndexFlatL2` stores the added vectors in insertion order and
  `index.search(q, k)` returns the `k` nearest stored vectors by
  squared L2 distance (FAISS IndexFlatL2 reports squared distances),
  ordered by ascending distance with ties broken by ascending index.
* Python floats are modelled as exact rationals; `round(x, 3)` is
  modelled as round-to-nearest on rationals (`round3`).
* Python `str.strip()` is modelled by `pyStrip` (drop leading and
  trailing whitespace characters).
* `MemoryEntry.metadata` (an opaque payload) and the `strftime`
  rendering of the timestamp are not modelled: no claim depends on
  them.  `datetime.now()` is modelled by an explicit `now : ℕ`
  argument to `add_memory`.
-/

namespace HfMemory

/-- Python `str.strip()`: remove leading and trailing whitespace. -/
def pyStrip (s : String) : String :=
  String.mk (((s.toList.dropWhile Char.isWhitespace).reverse.dropWhile
    Char.isWhitespace).reverse)

/-- Python `round(x, 3)`: round to three decimal places. -/
def round3 (x : ℚ) : ℚ :=
  ((round (x * 1000) : ℤ) : ℚ) / 1000

/-- Squared L2 distance between two vectors, as reported by
`faiss.IndexFlatL2.search`. -/
def sqDist (u v : List ℚ) : ℚ :=
  (List.zipWith (fun a b => (a - b) ^ 2) u v).sum

/-- `MemoryEntry` of `src/memory.py` (text, role, creation time). -/
structure MemoryEntry where
  text : String
  role : String
  timestamp : ℕ
  deriving DecidableEq, Repr

/-- State of a `SemanticMemory` object: the FAISS index contents
(`indexVecs`), the parallel entry list (`memories`) and the counter
(`total_entries`).  `embedding_dim` is fixed at construction. -/
structure SemanticMemory where
  embedding_dim : ℕ
  indexVecs : List (List ℚ)
  memories : List MemoryEntry
  total_entries : ℕ
  deriving DecidableEq, Repr

/-- `SemanticMemory.__init__`: empty index, no entries, dimension 384. -/
def SemanticMemory.init : SemanticMemory :=
  { embedding_dim := 384, indexVecs := [], memories := [], total_entries := 0 }

/-- `SemanticMemory.add_memory`: skip blank text, otherwise embed the
text, add the vector to the index, append the entry and bump the
counter. -/
def add_memory (encode : String → List ℚ) (s : SemanticMemory)
    (text role : String) (now : ℕ) : SemanticMemory :=
  if pyStrip text = "" then s
  else
    { s with
      indexVecs := s.indexVecs ++ [encode text],
      memories := s.memories ++ [⟨text, role, now⟩],
      total_entries := s.total_entries + 1 }

/-- `SemanticMemory.reset`: fresh index of the same dimension, clear
the entries, zero the counter. -/
def SemanticMemory.reset (s : SemanticMemory) : SemanticMemory :=
  { s with indexVecs := [], memories := [], total_entries := 0 }

/-- Dictionary built for one retrieved memory (`memory.to_dict()` plus
the fields added in `retrieve_similar`).  `similarity` is the rounded
score actually placed in the dictionary. -/
structure RetrievedMemory where
  text : String
  role : String
  timestamp : ℕ
  similarity : ℚ
  text_preview : String
  deriving DecidableEq, Repr

/-- `SemanticMemory._truncate_text`. -/
def truncate_text (text : String) (maxLength : ℕ) : String :=
  if text.length ≤ maxLength then text
  else String.mk (text.toList.take maxLength) ++ "..."

/-- Result dictionary for entry `m` found at squared distance `dist`:
`similarity = round(1 / (1 + dist), 3)`. -/
def toDict (m : MemoryEntry) (dist : ℚ) : RetrievedMemory :=
  { text := m.text, role := m.role, timestamp := m.timestamp,
    similarity := round3 (1 / (1 + dist)),
    text_preview := truncate_text m.text 80 }

/-- Ordering of FAISS search hits: ascending squared distance, ties by
ascending index. -/
def distIdxLE (p q : ℚ × ℕ) : Prop :=
  p.1 < q.1 ∨ (p.1 = q.1 ∧ p.2 ≤ q.2)

instance : DecidableRel distIdxLE := fun p q =>
  inferInstanceAs (Decidable (p.1 < q.1 ∨ (p.1 = q.1 ∧ p.2 ≤ q.2)))

/-- `index.search(q, k)` on a FAISS IndexFlatL2 holding `vecs`: the
`k` hits with smallest squared distance to `q`, as (distance, index)
pairs in ascending order of (distance, index). -/
def faissSearch (vecs : List (List ℚ)) (q : List ℚ) (k : ℕ) : List (ℚ × ℕ) :=
  (((List.range vecs.length).map
    (fun i => (sqDist q (vecs.getD i []), i))).insertionSort distIdxLE).take k

/-- The result-building loop of `retrieve_similar`: walk the hits in
order, skip out-of-range indices, skip the exact (stripped) match when
`ex` is set, append a dictionary per surviving hit, and break once
`topK` results have been collected. -/
def buildResults (mems : List MemoryEntry) (message : String) (ex : Bool)
    (topK : ℕ) : List (ℚ × ℕ) → List RetrievedMemory → List RetrievedMemory
  | [], acc => acc
  | (dist, idx) :: rest, acc =>
    if h : idx < mems.length then
      if ex = true ∧ pyStrip (mems.get ⟨idx, h⟩).text = pyStrip message then
        buildResults mems message ex topK rest acc
      else
        if topK ≤ (acc ++ [toDict (mems.get ⟨idx, h⟩) dist]).length then
          acc ++ [toDict (mems.get ⟨idx, h⟩) dist]
        else
          buildResults mems message ex topK rest
            (acc ++ [toDict (mems.get ⟨idx, h⟩) dist])
    else
      buildResults mems message ex topK rest acc

/-- Final `sorted(results, key=..., reverse=True)` relation: descending
similarity; Python's sort is stable, as is `List.insertionSort`. -/
def simGE (a b : RetrievedMemory) : Prop :=
  b.similarity ≤ a.similarity

instance : DecidableRel simGE := fun a b =>
  inferInstanceAs (Decidable (b.similarity ≤ a.similarity))

instance : IsTotal RetrievedMemory simGE :=
  ⟨fun a b => le_total b.similarity a.similarity⟩

instance : IsTrans RetrievedMemory simGE :=
  ⟨fun _ _ _ hab hbc => le_trans hbc hab⟩

/-- `SemanticMemory.retrieve_similar`.  The method never assigns to
`self`, so it is modelled as returning the (unchanged) state together
with the result list. -/
def retrieve_similar (encode : String → List ℚ) (s : SemanticMemory)
    (message : String) (topK : ℕ) (ex : Bool) :
    SemanticMemory × List RetrievedMemory :=
  if s.total_entries = 0 then (s, [])
  else
    (s, (buildResults s.memories message ex topK
      (faissSearch s.indexVecs (encode message)
        (min (topK + (if ex then 1 else 0)) s.total_entries))
      []).insertionSort simGE)

/-- Operations a caller can perform on the store (the two mutators). -/
inductive MemOp where
  | add (text role : String) (now : ℕ)
  | reset
  deriving DecidableEq, Repr

/-- Run a sequence of mutating operations against a store. -/
def runOps (encode : String → List ℚ) : SemanticMemory → List MemOp → SemanticMemory
  | s, [] => s
  | s, MemOp.add t r n :: ops => runOps encode (add_memory encode s t r n) ops
  | s, MemOp.reset :: ops => runOps encode (SemanticMemory.reset s) ops

/-- Alignment invariant of the store: the counter equals the number of
entries and the index holds, in order, exactly the embedding of each
entry's text (index position `i` ↔ entry offset `i`). -/
def Aligned (encode : String → List ℚ) (s : SemanticMemory) : Prop :=
  s.total_entries = s.memories.length ∧
    s.indexVecs = s.memories.map (fun m => encode m.text)

/-- Embedder sending every text to the same vector (all distances 0). -/
def encX1 : String → List ℚ := fun _ => [0]

/-- One-entry store holding "hello". -/
def stX1 : SemanticMemory := add_memory encX1 SemanticMemory.init "hello" "user" 0

/-- Embedder placing the query far (squared distance 2025) from every
stored text. -/
def encX2 : String → List ℚ := fun t => if t = "q" then [0] else [45]

/-- One-entry store holding "faraway". -/
def stX2 : SemanticMemory := add_memory encX2 SemanticMemory.init "faraway" "user" 0

/-- Embedder with squared distance 2025 between "q" and any stored
text. -/
def encX3 : String → List ℚ := fun t => if t = "q" then [1] else [46]

/-- One-entry store holding "distant". -/
def stX3 : SemanticMemory := add_memory encX3 SemanticMemory.init "distant" "user" 0

/-- Embedder giving squared distances 45 for "A" and 44 for "B" from
the query vector: both similarities round to 0.022. -/
def encX4 : String → List ℚ := fun t =>
  if t = "A" then [6, 3, 0] else if t = "B" then [6, 2, 2] else [0, 0, 0]

/-- Two-entry store: "A" inserted before "B". -/
def stX4 : SemanticMemory :=
  add_memory encX4 (add_memory encX4 SemanticMemory.init "A" "user" 0) "B" "user" 1

/-- Two-entry store with texts "alpha" and "beta". -/
def stW1 : SemanticMemory :=
  add_memory encX1 (add_memory encX1 SemanticMemory.init "alpha" "user" 0)
    "beta" "assistant" 1

/-- One-entry store holding "note". -/
def stW3 : SemanticMemory := add_memory encX1 SemanticMemory.init "note" "user" 0

/-- The result dictionary `retrieve_similar` builds for the "note"
entry at squared distance 0. -/
def rW3 : RetrievedMemory :=
  { text := "note", role := "user", timestamp := 0, similarity := 1,
    text_preview := "note" }

/-- One-entry store holding "old". -/
def stW8 : SemanticMemory := add_memory encX1 SemanticMemory.init "old" "user" 0

/-- One-entry store holding "kept". -/
def stW9 : SemanticMemory := add_memory encX1 SemanticMemory.init "kept" "user" 0

/-- Two-entry store: " hi " (whitespace around the query text) then
"yo". -/
def stW10 : SemanticMemory :=
  add_memory encX1 (add_memory encX1 SemanticMemory.init " hi " "user" 0)
    "yo" "assistant" 1

/-- The result dictionary `retrieve_similar` builds for the "yo" entry
at squared distance 0. -/
def rW10 : RetrievedMemory :=
  { text := "yo", role := "assistant", timestamp := 1, similarity := 1,
    text_preview := "yo" }

section GeneralLemmas

lemma sqDist_nonneg (u v : List ℚ) : 0 ≤ sqDist u v := by
  rw [sqDist]
  apply List.sum_nonneg
  intro x hx
  induction u generalizing v with
  | nil => simp at hx
  | cons a u ih =>
    cases v with
    | nil => simp at hx
    | cons b v =>
      simp only [List.zipWith_cons_cons, List.mem_cons] at hx
      rcases hx with h | h
      · rw [h]; positivity
      · exact ih v h

lemma round3_bounds (d : ℚ) (hd : 0 ≤ d) :
    0 ≤ round3 (1 / (1 + d)) ∧ round3 (1 / (1 + d)) ≤ 1 := by
  have h1 : (0:ℚ) < 1 + d := by linarith
  have hx0 : (0:ℚ) < 1 / (1 + d) := by positivity
  have hx1 : 1 / (1 + d) ≤ 1 := by
    rw [div_le_one h1]; linarith
  rw [round3, round_eq]
  have hfl0 : (0:ℤ) ≤ ⌊1 / (1 + d) * 1000 + 1 / 2⌋ := by
    apply Int.floor_nonneg.mpr
    positivity
  have hfl1 : ⌊1 / (1 + d) * 1000 + 1 / 2⌋ ≤ (1000:ℤ) := by
    have : ⌊1 / (1 + d) * 1000 + 1 / 2⌋ ≤ ⌊(1000 : ℚ) + 1 / 2⌋ := by
      apply Int.floor_le_floor
      nlinarith
    have h2 : ⌊(1000 : ℚ) + 1 / 2⌋ = (1000:ℤ) := by norm_num
    omega
  constructor
  · positivity
  · rw [div_le_one (by norm_num)]
    exact_mod_cast hfl1

lemma length_faissSearch (vecs : List (List ℚ)) (q : List ℚ) (k : ℕ) :
    (faissSearch vecs q k).length = min k vecs.length := by
  simp [faissSearch, List.length_insertionSort]

lemma mem_faissSearch (vecs : List (List ℚ)) (q : List ℚ) (k : ℕ)
    (p : ℚ × ℕ) (hp : p ∈ faissSearch vecs q k) :
    p.2 < vecs.length ∧ p.1 = sqDist q (vecs.getD p.2 []) := by
  have h1 := List.mem_of_mem_take hp
  have h2 := (List.perm_insertionSort distIdxLE _).mem_iff.mp h1
  obtain ⟨i, hi, hpe⟩ := List.mem_map.mp h2
  rw [List.mem_range] at hi
  rw [← hpe]
  exact ⟨hi, rfl⟩

lemma aligned_init (encode : String → List ℚ) :
    Aligned encode SemanticMemory.init := ⟨rfl, rfl⟩

lemma aligned_add (encode : String → List ℚ) (s : SemanticMemory)
    (t r : String) (n : ℕ) (h : Aligned encode s) :
    Aligned encode (add_memory encode s t r n) := by
  obtain ⟨h1, h2⟩ := h
  rw [add_memory]
  split
  · exact ⟨h1, h2⟩
  · constructor
    · simp [h1]
    · simp [h2]

lemma aligned_reset (encode : String → List ℚ) (s : SemanticMemory) :
    Aligned encode s.reset := ⟨rfl, rfl⟩

lemma aligned_runOps (encode : String → List ℚ) (ops : List MemOp) :
    ∀ s : SemanticMemory, Aligned encode s → Aligned encode (runOps encode s ops) := by
  induction ops with
  | nil => intro s hs; exact hs
  | cons op ops ih =>
    intro s hs
    cases op with
    | add t r n => exact ih _ (aligned_add encode s t r n hs)
    | reset => exact ih _ (aligned_reset encode s)

lemma buildResults_length (mems : List MemoryEntry) (msg : String) (ex : Bool)
    (topK : ℕ) :
    ∀ (hits : List (ℚ × ℕ)) (acc : List RetrievedMemory),
      (∀ p ∈ hits, p.2 < mems.length) →
      (∀ p ∈ hits, ∀ h : p.2 < mems.length,
        ¬(ex = true ∧ pyStrip (mems.get ⟨p.2, h⟩).text = pyStrip msg)) →
      acc.length < topK →
      (buildResults mems msg ex topK hits acc).length =
        min topK (acc.length + hits.length) := by
  intro hits
  induction hits with
  | nil =>
    intro acc _ _ hacc
    rw [buildResults]
    simp only [List.length_nil, Nat.add_zero]
    omega
  | cons p rest ih =>
    obtain ⟨d, i⟩ := p
    intro acc hvalid hexcl hacc
    have hi : i < mems.length := hvalid (d, i) (List.mem_cons_self _ _)
    have hne := hexcl (d, i) (List.mem_cons_self _ _) hi
    rw [buildResults, dif_pos hi, if_neg hne]
    have hlen : (acc ++ [toDict (mems.get ⟨i, hi⟩) d]).length = acc.length + 1 := by
      simp
    by_cases hstop : topK ≤ (acc ++ [toDict (mems.get ⟨i, hi⟩) d]).length
    · rw [if_pos hstop]
      rw [hlen] at hstop ⊢
      simp only [List.length_cons]
      omega
    · rw [if_neg hstop]
      rw [ih _ (fun p hp => hvalid p (List.mem_cons_of_mem _ hp))
        (fun p hp => hexcl p (List.mem_cons_of_mem _ hp)) (by omega)]
      rw [hlen]
      simp only [List.length_cons]
      omega

lemma buildResults_mem (mems : List MemoryEntry) (msg : String) (ex : Bool)
    (topK : ℕ) :
    ∀ (hits : List (ℚ × ℕ)) (acc : List RetrievedMemory)
      (r : RetrievedMemory), r ∈ buildResults mems msg ex topK hits acc →
      r ∈ acc ∨ ∃ (i : ℕ) (h : i < mems.length) (d : ℚ), (d, i) ∈ hits ∧
        r = toDict (mems.get ⟨i, h⟩) d ∧
        ¬(ex = true ∧ pyStrip (mems.get ⟨i, h⟩).text = pyStrip msg) := by
  intro hits
  induction hits with
  | nil =>
    intro acc r hr
    rw [buildResults] at hr
    exact Or.inl hr
  | cons p rest ih =>
    obtain ⟨d, i⟩ := p
    intro acc r hr
    have lift : r ∈ acc ∨ (∃ (i2 : ℕ) (h : i2 < mems.length) (d2 : ℚ),
        (d2, i2) ∈ rest ∧ r = toDict (mems.get ⟨i2, h⟩) d2 ∧
        ¬(ex = true ∧ pyStrip (mems.get ⟨i2, h⟩).text = pyStrip msg)) →
        r ∈ acc ∨ ∃ (i2 : ℕ) (h : i2 < mems.length) (d2 : ℚ),
        (d2, i2) ∈ (d, i) :: rest ∧ r = toDict (mems.get ⟨i2, h⟩) d2 ∧
        ¬(ex = true ∧ pyStrip (mems.get ⟨i2, h⟩).text = pyStrip msg) := by
      rintro (h | ⟨i2, h2, d2, hmem, heq, hnex⟩)
      · exact Or.inl h
      · exact Or.inr ⟨i2, h2, d2, List.mem_cons_of_mem _ hmem, heq, hnex⟩
    rw [buildResults] at hr
    by_cases hvalid : i < mems.length
    · rw [dif_pos hvalid] at hr
      by_cases hex : ex = true ∧ pyStrip (mems.get ⟨i, hvalid⟩).text = pyStrip msg
      · rw [if_pos hex] at hr
        exact lift (ih acc r hr)
      · rw [if_neg hex] at hr
        by_cases hstop : topK ≤ (acc ++ [toDict (mems.get ⟨i, hvalid⟩) d]).length
        · rw [if_pos hstop] at hr
          rcases List.mem_append.mp hr with h | h
          · exact Or.inl h
          · rw [List.mem_singleton] at h
            exact Or.inr ⟨i, hvalid, d, List.mem_cons_self _ _, h, hex⟩
        · rw [if_neg hstop] at hr
          rcases ih _ r hr with h | h
          · rcases List.mem_append.mp h with h2 | h2
            · exact Or.inl h2
            · rw [List.mem_singleton] at h2
              exact Or.inr ⟨i, hvalid, d, List.mem_cons_self _ _, h2, hex⟩
          · exact lift (Or.inr h)
    · rw [dif_neg hvalid] at hr
      exact lift (ih acc r hr)

end GeneralLemmas

/-- Claim C1 (amended): for an aligned store and `k ≥ 1`,
`retrieve_similar(q, k)` returns exactly `min(k, n)` results provided
the exact-match exclusion removes nothing (the flag is off, or no
stored entry's stripped text equals the stripped query); when the
exclusion does fire, matching candidates are dropped and fewer results
can be returned. -/
theorem c1_topk_clamp (encode : String → List ℚ) (s : SemanticMemory)
    (msg : String) (k : ℕ) (ex : Bool)
    (h1 : s.total_entries = s.memories.length)
    (h2 : s.indexVecs.length = s.memories.length)
    (hk : 1 ≤ k)
    (hne : ex = false ∨ ∀ m ∈ s.memories, pyStrip m.text ≠ pyStrip msg) :
    (retrieve_similar encode s msg k ex).2.length = min k s.total_entries := by
  unfold retrieve_similar
  split
  case isTrue h =>
    dsimp only
    rw [h]
    simp
  case isFalse h =>
    dsimp only
    rw [List.length_insertionSort]
    set e := (if ex then 1 else 0) with he
    set sk := min (k + e) s.total_entries with hsk
    have hlenh : (faissSearch s.indexVecs (encode msg) sk).length = sk := by
      rw [length_faissSearch, h2, ← h1]
      omega
    have hvalid : ∀ p ∈ faissSearch s.indexVecs (encode msg) sk,
        p.2 < s.memories.length := by
      intro p hp
      have h3 := (mem_faissSearch _ _ _ p hp).1
      rwa [h2] at h3
    have hexcl : ∀ p ∈ faissSearch s.indexVecs (encode msg) sk,
        ∀ hh : p.2 < s.memories.length,
        ¬(ex = true ∧ pyStrip (s.memories.get ⟨p.2, hh⟩).text = pyStrip msg) := by
      intro p hp hh
      rcases hne with hf | hall
      · rintro ⟨hex, -⟩
        rw [hf] at hex
        exact Bool.false_ne_true hex
      · rintro ⟨-, hcon⟩
        exact hall _ (List.get_mem _ _ _) hcon
    rw [buildResults_length s.memories msg ex k _ [] hvalid hexcl
      (by simp only [List.length_nil]; omega)]
    rw [hlenh]
    simp only [List.length_nil, Nat.zero_add]
    have he2 : e = 0 ∨ e = 1 := by
      rw [he]
      cases ex <;> simp
    omega

/-- Claim C3 (amended): every similarity carried by a result of
`retrieve_similar` lies in `[0, 1]`; the unrounded score `1/(1+d)` is
in `(0, 1]`, but the value stored in the result is rounded to three
decimals and can collapse to `0` for large distances. -/
theorem c3_similarity_bounds (encode : String → List ℚ) (s : SemanticMemory)
    (msg : String) (k : ℕ) (ex : Bool) (r : RetrievedMemory)
    (hr : r ∈ (retrieve_similar encode s msg k ex).2) :
    0 ≤ r.similarity ∧ r.similarity ≤ 1 := by
  unfold retrieve_similar at hr
  split at hr
  case isTrue => simp at hr
  case isFalse =>
    have hr2 := (List.perm_insertionSort simGE _).mem_iff.mp hr
    rcases buildResults_mem _ _ _ _ _ _ r hr2 with h | ⟨i, hlt, d, hmem, heq, -⟩
    · simp at h
    · have hd := (mem_faissSearch _ _ _ _ hmem).2
      have hd0 : 0 ≤ d := by
        rw [show d = ((d, i) : ℚ × ℕ).1 from rfl, hd]
        exact sqDist_nonneg _ _
      rw [heq]
      exact round3_bounds d hd0

/-- Claim C4 (amended): the sequence returned by `retrieve_similar` is
sorted by similarity in non-increasing order; entries with equal
rounded similarity keep the order of the index search (ascending
distance, then insertion order), which is not always ascending
insertion order. -/
theorem c4_sorted (encode : String → List ℚ) (s : SemanticMemory)
    (msg : String) (k : ℕ) (ex : Bool) :
    List.Pairwise (fun a b => b.similarity ≤ a.similarity)
      (retrieve_similar encode s msg k ex).2 := by
  unfold retrieve_similar
  split
  · exact List.Pairwise.nil
  · exact List.sorted_insertionSort simGE _

/-- Claim C5 (amended): a whitespace-only or empty query never raises
and is processed like any other query; the result is empty whenever the
store is empty (on a non-empty store such a query can return
entries). -/
theorem c5_empty_store (encode : String → List ℚ) (s : SemanticMemory)
    (msg : String) (k : ℕ) (ex : Bool) (h : s.total_entries = 0) :
    (retrieve_similar encode s msg k ex).2 = [] := by
  unfold retrieve_similar
  rw [if_pos h]

/-- Claim C6 (confirmed): `retrieve_similar` never mutates the store —
after the call the entry sequence, the vector index and the
total-entries counter are unchanged. -/
theorem c6_no_mutation (encode : String → List ℚ) (s : SemanticMemory)
    (msg : String) (k : ℕ) (ex : Bool) :
    (retrieve_similar encode s msg k ex).1.memories = s.memories ∧
    (retrieve_similar encode s msg k ex).1.indexVecs = s.indexVecs ∧
    (retrieve_similar encode s msg k ex).1.total_entries = s.total_entries := by
  unfold retrieve_similar
  split <;> exact ⟨rfl, rfl, rfl⟩

/-- Claim C7 (confirmed): after every finite sequence of `add` and
`reset` operations from a fresh store, the entry list and the index
have the same length, the counter equals that length, and index
position `i` holds exactly the embedding of entry `i`'s text. -/
theorem c7_alignment (encode : String → List ℚ) (ops : List MemOp) :
    (runOps encode SemanticMemory.init ops).memories.length =
      (runOps encode SemanticMemory.init ops).indexVecs.length ∧
    (runOps encode SemanticMemory.init ops).total_entries =
      (runOps encode SemanticMemory.init ops).memories.length ∧
    (runOps encode SemanticMemory.init ops).indexVecs =
      (runOps encode SemanticMemory.init ops).memories.map
        (fun m => encode m.text) := by
  obtain ⟨ha, hb⟩ := aligned_runOps encode ops SemanticMemory.init (aligned_init encode)
  refine ⟨?_, ha, hb⟩
  rw [hb, List.length_map]

/-- Claim C8 (confirmed): `reset` is idempotent and restores the
dimension-preserving empty state: after one or two resets the counter
is `0`, resetting twice equals resetting once, the embedding dimension
is unchanged, and a subsequent `add` with non-blank text leaves the
counter at `1`. -/
theorem c8_reset_idempotent (encode : String → List ℚ) (s : SemanticMemory)
    (text role : String) (now : ℕ) (h : pyStrip text ≠ "") :
    s.reset.total_entries = 0 ∧
    s.reset.reset = s.reset ∧
    s.reset.reset.total_entries = 0 ∧
    s.reset.embedding_dim = s.embedding_dim ∧
    (add_memory encode s.reset.reset text role now).total_entries = 1 := by
  refine ⟨rfl, rfl, rfl, rfl, ?_⟩
  rw [add_memory, if_neg h]
  rfl

/-- Claim C9 (confirmed): `add_memory` with blank (empty or
whitespace-only) text leaves the store entirely unchanged and returns
normally. -/
theorem c9_blank_add_noop (encode : String → List ℚ) (s : SemanticMemory)
    (text role : String) (now : ℕ) (h : pyStrip text = "") :
    add_memory encode s text role now = s := by
  rw [add_memory, if_pos h]

/-- Claim C10 (confirmed): with the exclusion flag set, no returned
entry's text equals the query after stripping leading and trailing
whitespace — an entry differing from the query only in surrounding
whitespace is also dropped. -/
theorem c10_strip_exclusion (encode : String → List ℚ) (s : SemanticMemory)
    (msg : String) (k : ℕ) (r : RetrievedMemory)
    (hr : r ∈ (retrieve_similar encode s msg k true).2) :
    pyStrip r.text ≠ pyStrip msg := by
  unfold retrieve_similar at hr
  split at hr
  · simp at hr
  · have hr2 := (List.perm_insertionSort simGE _).mem_iff.mp hr
    rcases buildResults_mem _ _ _ _ _ _ r hr2 with h | ⟨i, hlt, d, hmem, heq, hnex⟩
    · simp at h
    · rw [heq]
      intro hcon
      exact hnex ⟨rfl, hcon⟩

attribute [local semireducible] Rat.add Rat.mul Rat.inv Rat.sub Rat.ofScientific

/-- Claim C1 counterexample: on a store whose single entry "hello" is
textually identical to the query, `retrieve_similar("hello", 1)` (with
the default exact-match exclusion) returns 0 results, not
`min(1, 1) = 1`. -/
theorem c1_counterexample :
    ¬((retrieve_similar encX1 stX1 "hello" 1 true).2.length =
      min 1 stX1.total_entries) := by decide

/-- Claim C1 witness: on a two-entry store with `k = 5` and no entry
matching the query, exactly `min(5, 2) = 2` results are returned. -/
theorem c1_witness :
    stW1.total_entries = stW1.memories.length ∧
    stW1.indexVecs.length = stW1.memories.length ∧
    1 ≤ 5 ∧
    (∀ m ∈ stW1.memories, pyStrip m.text ≠ pyStrip "query") ∧
    (retrieve_similar encX1 stW1 "query" 5 true).2.length =
      min 5 stW1.total_entries :=
  ⟨by decide, by decide, by decide, by decide,
    c1_topk_clamp encX1 stW1 "query" 5 true (by decide) (by decide) (by decide)
      (Or.inr (by decide))⟩

/-- Claim C2 counterexample: `retrieve_similar` has no threshold
parameter and applies no threshold filter — for the threshold value
1/2 ∈ [0,1], a returned entry scores below it. -/
theorem c2_counterexample :
    (0:ℚ) ≤ 1/2 ∧ (1/2:ℚ) ≤ 1 ∧
    ∃ r ∈ (retrieve_similar encX2 stX2 "q" 1 false).2,
      r.similarity < 1/2 := by decide

/-- Claim C2 (amended): `retrieve_similar` takes no threshold argument
and performs no similarity-threshold filtering: for every positive
threshold there is a call whose results include an entry scoring below
it. -/
theorem c2_no_threshold (t : ℚ) (ht : 0 < t) :
    ∃ r ∈ (retrieve_similar encX2 stX2 "q" 1 false).2, r.similarity < t := by
  have heval : (retrieve_similar encX2 stX2 "q" 1 false).2 =
      [{ text := "faraway", role := "user", timestamp := 0, similarity := 0,
         text_preview := "faraway" }] := by decide
  rw [heval]
  exact ⟨_, List.mem_singleton_self _, by simpa using ht⟩

/-- Claim C2 witness: instance of `c2_no_threshold` at threshold
1/2. -/
theorem c2_witness :
    (0:ℚ) < 1/2 ∧
    ∃ r ∈ (retrieve_similar encX2 stX2 "q" 1 false).2, r.similarity < 1/2 :=
  ⟨by norm_num, c2_no_threshold (1/2) (by norm_num)⟩

/-- Claim C3 counterexample: at squared distance 2025 the unrounded
similarity 1/2026 rounds to 0.000, so the returned score is not
strictly positive. -/
theorem c3_counterexample :
    ∃ r ∈ (retrieve_similar encX3 stX3 "q" 1 false).2,
      ¬(0 < r.similarity ∧ r.similarity ≤ 1) := by decide

/-- Claim C3 witness: instance of `c3_similarity_bounds` for a concrete
returned result. -/
theorem c3_witness :
    rW3 ∈ (retrieve_similar encX1 stW3 "q" 1 false).2 ∧
    0 ≤ rW3.similarity ∧ rW3.similarity ≤ 1 :=
  ⟨by decide, c3_similarity_bounds encX1 stW3 "q" 1 false rW3 (by decide)⟩

/-- Claim C4 counterexample: "A" (inserted first, squared distance 45)
and "B" (inserted second, squared distance 44) both get rounded
similarity 0.022 = 11/500, yet "B" is returned before "A" — equal
similarities are ordered by ascending distance, not by insertion
order. -/
theorem c4_counterexample :
    stX4.memories.map (fun m => m.text) = ["A", "B"] ∧
    (retrieve_similar encX4 stX4 "q" 2 false).2.map (fun r => r.text) =
      ["B", "A"] ∧
    (retrieve_similar encX4 stX4 "q" 2 false).2.map (fun r => r.similarity) =
      [11/500, 11/500] := by decide

/-- Claim C5 counterexample: an empty query against a non-empty store
returns a non-empty result list instead of the empty sequence. -/
theorem c5_counterexample :
    ¬((retrieve_similar encX1 stX1 "" 3 true).2 = []) := by decide

/-- Claim C5 witness: instance of `c5_empty_store` on the fresh store
with a whitespace-only query. -/
theorem c5_witness :
    SemanticMemory.init.total_entries = 0 ∧
    (retrieve_similar encX1 SemanticMemory.init " " 3 true).2 = [] :=
  ⟨rfl, c5_empty_store encX1 SemanticMemory.init " " 3 true rfl⟩

/-- Claim C8 witness: instance of `c8_reset_idempotent` on a one-entry
store with the non-blank text "fresh". -/
theorem c8_witness :
    pyStrip "fresh" ≠ "" ∧
    (stW8.reset.total_entries = 0 ∧
      stW8.reset.reset = stW8.reset ∧
      stW8.reset.reset.total_entries = 0 ∧
      stW8.reset.embedding_dim = stW8.embedding_dim ∧
      (add_memory encX1 stW8.reset.reset "fresh" "user" 9).total_entries = 1) :=
  ⟨by decide, c8_reset_idempotent encX1 stW8 "fresh" "user" 9 (by decide)⟩

/-- Claim C9 witness: instance of `c9_blank_add_noop` with a
whitespace-only text on a non-empty store. -/
theorem c9_witness :
    pyStrip "   " = "" ∧ add_memory encX1 stW9 "   " "user" 7 = stW9 :=
  ⟨by decide, c9_blank_add_noop encX1 stW9 "   " "user" 7 (by decide)⟩

/-- Claim C10 witness: instance of `c10_strip_exclusion` — the entry
" hi " (query "hi" plus surrounding whitespace) is dropped and the
returned "yo" result has stripped text different from the stripped
query. -/
theorem c10_witness :
    rW10 ∈ (retrieve_similar encX1 stW10 "hi" 2 true).2 ∧
    pyStrip rW10.text ≠ pyStrip "hi" :=
  ⟨by decide, c10_strip_exclusion encX1 stW10 "hi" 2 rW10 (by decide)⟩

end HfMemory
